import Mathlib

/-!
Verification of the filter + aggregation core of `app2.py` (TP2 dashboard).

The embedding below translates the module-level load/validation code and the
body of the `update_all` callback into Lean.  Conventions:

* pandas timestamps are modelled as `Int` nanoseconds since the epoch;
  a calendar date `d` (an integer day number) starts at `dayStart d` and
  `pd.Timedelta(days=1)` is `nsPerDay` nanoseconds.
* float amounts are modelled as `Rat`; int64 columns as `Int`.
* a pandas `Series.sort_values(ascending=False)` computes an ascending
  argsort with numpy's default introsort and then reverses it
  (`pandas.core.sorting.nargsort`).  Introsort is stable only below its
  insertion-sort cutoff, so the program fixes no tie order in general; the
  model uses a stable ascending insertion sort followed by `reverse`, which
  agrees with the program on arrays below the cutoff (all concrete
  counterexamples here use two-element arrays).  No universally quantified
  theorem below asserts a tie order.
* `groupby(key)` enumerates the distinct keys in ascending order; the model
  takes the deduplicated key list sorted ascending.
* a missing / unparsable cell is modelled as `none`.
-/

namespace TP2

/-- One transaction row after load-time coercion: the columns of
`data_dashboard_large.xlsx` used by `update_all`.  `date` is the
`Date_Transaction` timestamp in nanoseconds; `produit` is the optional
`Produit` column (meaningful only when the dataset-level flag is set). -/
structure Row where
  idClient : String
  date : Int
  montant : Rat
  magasin : String
  categorie : String
  quantite : Int
  modePaiement : String
  satisfaction : Int
  produit : String
deriving DecidableEq

/-- Nanoseconds in one day: `pd.Timedelta(days=1)`. -/
def nsPerDay : Int := 86400000000000

/-- Midnight of calendar day `d`: `pd.to_datetime(<date d>)`. -/
def dayStart (d : Int) : Int := d * nsPerDay

/-- Calendar-day truncation of a timestamp: `.dt.date`. -/
def dateOnly (t : Int) : Int := Int.fdiv t nsPerDay

/-- The five filter inputs of `update_all`: `start_date`, `end_date`
(calendar day numbers), and the three multi-select dropdowns.  Dash passes
`None` or a list; Python truthiness treats `None` and `[]` alike, so both
are modelled as the empty list. -/
structure FilterSpec where
  startDate : Option Int
  endDate : Option Int
  stores : List String
  cats : List String
  pays : List String
deriving DecidableEq

/-- The filtering prelude of `update_all` (lines 199-209 of `app2.py`):
five successive conditional `dff = dff[mask]` steps.  Note the end-date
comparison is `<=` against `end_date + 1 day`, exactly as in the source. -/
def applyFilter (spec : FilterSpec) (rows : List Row) : List Row :=
  let d1 := match spec.startDate with
    | none => rows
    | some s => rows.filter (fun r => decide (dayStart s ≤ r.date))
  let d2 := match spec.endDate with
    | none => d1
    | some e => d1.filter (fun r => decide (r.date ≤ dayStart e + nsPerDay))
  let d3 := match spec.stores with
    | [] => d2
    | _ :: _ => d2.filter (fun r => decide (r.magasin ∈ spec.stores))
  let d4 := match spec.cats with
    | [] => d3
    | _ :: _ => d3.filter (fun r => decide (r.categorie ∈ spec.cats))
  match spec.pays with
  | [] => d4
  | _ :: _ => d4.filter (fun r => decide (r.modePaiement ∈ spec.pays))

/-- The conjunction of the five row predicates of the filtering prelude:
a row survives all five masks iff it satisfies each active predicate. -/
def passes (spec : FilterSpec) (r : Row) : Bool :=
  (match spec.startDate with
    | none => true
    | some s => decide (dayStart s ≤ r.date)) &&
  (match spec.endDate with
    | none => true
    | some e => decide (r.date ≤ dayStart e + nsPerDay)) &&
  (match spec.stores with
    | [] => true
    | _ :: _ => decide (r.magasin ∈ spec.stores)) &&
  (match spec.cats with
    | [] => true
    | _ :: _ => decide (r.categorie ∈ spec.cats)) &&
  (match spec.pays with
    | [] => true
    | _ :: _ => decide (r.modePaiement ∈ spec.pays))

/-- KPI `total_ventes = dff['Montant'].sum()`. -/
def total_ventes (rows : List Row) : Rat := (rows.map Row.montant).sum

/-- KPI `nb_transactions = len(dff)`. -/
def nb_transactions (rows : List Row) : Nat := rows.length

/-- KPI `vente_moyenne = dff['Montant'].mean() if nb_transactions>0 else 0.0`. -/
def vente_moyenne (rows : List Row) : Rat :=
  if 0 < rows.length then total_ventes rows / (rows.length : Rat) else 0

/-- KPI `satisfaction_moyenne`, same guard as `vente_moyenne`. -/
def satisfaction_moyenne (rows : List Row) : Rat :=
  if 0 < rows.length then
    ((rows.map (fun r => (r.satisfaction : Rat))).sum) / (rows.length : Rat)
  else 0

/-- Distinct keys in ascending order: what `groupby(key)` (and
`sorted(col.unique())`) enumerates. -/
def sortedKeys {κ : Type} [LinearOrder κ] [DecidableEq κ] (l : List κ) : List κ :=
  List.insertionSort (fun a b => a ≤ b) l.dedup

/-- `dff.groupby(keyOf)[...]` followed by an aggregation of each group:
one `(key, agg of the rows with that key)` pair per distinct key, keys
ascending. -/
def groupAgg {κ β : Type} [LinearOrder κ] [DecidableEq κ]
    (keyOf : Row → κ) (agg : List Row → β) (rows : List Row) : List (κ × β) :=
  (sortedKeys (rows.map keyOf)).map
    (fun k => (k, agg (rows.filter (fun r => decide (keyOf r = k)))))

/-- `Series.sort_values(ascending=False)`: ascending sort on the aggregated
value, then reverse (the `nargsort` model described in the file header).
The insertion sort used here is stable, which matches numpy only below the
introsort cutoff; the program guarantees only the weakly descending value
order, not a tie order, and no universally quantified theorem relies on
this model's tie order. -/
def sortDescByVal {κ β : Type} [LinearOrder β] (l : List (κ × β)) : List (κ × β) :=
  (List.insertionSort (fun a b => a.2 ≤ b.2) l).reverse

/-- Sum of `Montant` over a group of rows. -/
def sum_montant (l : List Row) : Rat := (l.map Row.montant).sum

/-- Mean of `Montant` over a group of rows (groups produced by `groupby`
are never empty; `Rat` division by zero yields `0`, so the function is
total either way). -/
def mean_montant (l : List Row) : Rat := sum_montant l / (l.length : Rat)

/-- Mean of `Satisfaction_Client` over a group of rows. -/
def mean_satisfaction (l : List Row) : Rat :=
  ((l.map (fun r => (r.satisfaction : Rat))).sum) / (l.length : Rat)

/-- `daily`: revenue summed per calendar day, ascending by day. -/
def daily (rows : List Row) : List (Int × Rat) :=
  groupAgg (fun r => dateOnly r.date) sum_montant rows

/-- `sales_by_cat`: revenue per category, descending. -/
def sales_by_cat (rows : List Row) : List (String × Rat) :=
  sortDescByVal (groupAgg Row.categorie sum_montant rows)

/-- `sales_store`: revenue per store, descending. -/
def sales_store (rows : List Row) : List (String × Rat) :=
  sortDescByVal (groupAgg Row.magasin sum_montant rows)

/-- `avg_store`: mean amount per store, descending. -/
def avg_store (rows : List Row) : List (String × Rat) :=
  sortDescByVal (groupAgg Row.magasin mean_montant rows)

/-- `store_table_df`: per store, `(Ventes_Totales, Nb_Transactions)`,
keys ascending (this table is not value-sorted in the source). -/
def store_table (rows : List Row) : List (String × Rat × Nat) :=
  groupAgg Row.magasin (fun l => ((l.map Row.montant).sum, l.length)) rows

/-- `qty_cat`: quantity summed per category, descending. -/
def qty_cat (rows : List Row) : List (String × Int) :=
  sortDescByVal (groupAgg Row.categorie (fun l => (l.map Row.quantite).sum) rows)

/-- Lexicographic order on the `(Categorie_Produit, Magasin)` key pairs of
the stacked chart's groupby. -/
def pairLe (a b : String × String) : Prop := a.1 < b.1 ∨ (a.1 = b.1 ∧ a.2 ≤ b.2)

instance pairLe.decRel : DecidableRel pairLe := fun a b => by
  unfold pairLe; exact inferInstance

/-- `stacked`: revenue per `(category, store)` pair, one row per present
pair, pairs in ascending lexicographic order. -/
def stacked (rows : List Row) : List ((String × String) × Rat) :=
  (List.insertionSort pairLe ((rows.map (fun r => (r.categorie, r.magasin))).dedup)).map
    (fun k => (k, sum_montant (rows.filter
      (fun r => decide ((r.categorie, r.magasin) = k)))))

/-- `pay_counts = dff['Mode_Paiement'].value_counts()`: transaction count
per payment mode, descending by count.  pandas enumerates the distinct
modes in unspecified hash-table order before the descending sort; the
ascending-key enumeration used here is a concrete stand-in, and no theorem
below depends on the tie order of this view. -/
def pay_counts (rows : List Row) : List (String × Nat) :=
  sortDescByVal (groupAgg Row.modePaiement (fun l => l.length) rows)

/-- `sat_store`: mean satisfaction per store, descending. -/
def sat_store (rows : List Row) : List (String × Rat) :=
  sortDescByVal (groupAgg Row.magasin mean_satisfaction rows)

/-- `sat_cat`: mean satisfaction per category, descending. -/
def sat_cat (rows : List Row) : List (String × Rat) :=
  sortDescByVal (groupAgg Row.categorie mean_satisfaction rows)

/-- `sat_dist = dff['Satisfaction_Client'].value_counts().sort_index()`:
count per satisfaction score, ascending by score. -/
def sat_dist (rows : List Row) : List (Int × Nat) :=
  groupAgg Row.satisfaction (fun l => l.length) rows

/-- `total = sat_dist['count'].sum() if not sat_dist.empty else 1`. -/
def sat_total (rows : List Row) : Nat :=
  if (sat_dist rows).isEmpty then 1
  else ((sat_dist rows).map (fun e => e.2)).sum

/-- Round a rational to the nearest integer, halves to even: the rounding
used by `numpy.round` (modelled on exact rationals; the source operates on
IEEE doubles, whose representation error is outside this model). -/
def roundHalfEven (q : Rat) : Int :=
  if q - q.floor < 1/2 then q.floor
  else if (1 : Rat)/2 < q - q.floor then q.floor + 1
  else if q.floor % 2 = 0 then q.floor else q.floor + 1

/-- `.round(2)`: round to two decimal places. -/
def round2 (q : Rat) : Rat := (roundHalfEven (q * 100) : Rat) / 100

/-- The satisfaction distribution table: per score `(score, count, pct)` with
`pct = (count / total * 100).round(2)`. -/
def sat_dist_table (rows : List Row) : List (Int × Nat × Rat) :=
  (sat_dist rows).map
    (fun e => (e.1, e.2, round2 ((e.2 : Rat) / (sat_total rows : Rat) * 100)))

/-- `top_prod['Rank'] = range(1, len(top_prod)+1)`: attach ordinal ranks
`n, n+1, ...` to the entries of an already-sorted `(Produit, Quantite)`
list. -/
def withRanks {β : Type} : Nat → List (String × β) → List (Nat × String × β)
  | _, [] => []
  | n, (p, q) :: t => (n, p, q) :: withRanks (n + 1) t

/-- The per-category Top-5 product tables (lines 275-289 of `app2.py`):
for each category in `sorted(dff['Categorie_Produit'].unique())`, group the
category's rows by `Produit`, sum `Quantite`, sort descending, keep the
first five, and rank them `1..k`; empty tables are skipped (`continue`). -/
def topProdTables (rows : List Row) : List (String × List (Nat × String × Int)) :=
  (sortedKeys (rows.map Row.categorie)).filterMap (fun cat =>
    let sub := rows.filter (fun r => decide (r.categorie = cat))
    let top_prod :=
      (sortDescByVal (groupAgg Row.produit (fun l => (l.map Row.quantite).sum) sub)).take 5
    if top_prod.isEmpty then none else some (cat, withRanks 1 top_prod))

/-- The three shapes of the `top-products-area` output: the ranked tables,
the "Aucune donnée produit disponible" placeholder, and the structured
"Colonne 'Produit' absente" marker used when the optional column is missing. -/
inductive TopProductsView where
  | available : List (String × List (Nat × String × Int)) → TopProductsView
  | noData : TopProductsView
  | unavailable : TopProductsView
deriving DecidableEq

/-- The full `top-products-area` computation: the `if 'Produit' in
dff.columns` branch of `update_all`, keyed by the dataset-level capability
flag. -/
def topProductsView (hasProduit : Bool) (rows : List Row) : TopProductsView :=
  if hasProduit then
    let ts := topProdTables rows
    if ts.isEmpty then .noData else .available ts
  else .unavailable

/-- The required columns of the source workbook (`expected_cols`). -/
def expected_cols : List String :=
  ["ID_Client", "Date_Transaction", "Montant", "Magasin", "Categorie_Produit",
   "Quantite", "Mode_Paiement", "Satisfaction_Client"]

/-- `missing = expected_cols - set(df.columns)`. -/
def missingCols (cols : List String) : List String :=
  expected_cols.filter (fun c => decide (c ∉ cols))

/-- Outcome of the startup schema check: either the columns are accepted or
the process aborts with a diagnostic naming the missing columns and the
sorted full expected set (`sys.exit(f"... {missing} ... {sorted(expected_cols)}")`). -/
inductive LoadResult where
  | ok : LoadResult
  | schemaError : List String → List String → LoadResult
deriving DecidableEq

/-- The strict column verification (lines 26-31 of `app2.py`). -/
def schemaCheck (cols : List String) : LoadResult :=
  let m := missingCols cols
  if m.isEmpty then .ok
  else .schemaError m (List.insertionSort (fun a b => a ≤ b) expected_cols)

/-- `pd.to_numeric(x, errors='coerce').fillna(0.0)` on the `Montant`
column: an unparsable or missing cell (modelled as `none`) becomes `0.0`. -/
def coerceMontant (v : Option Rat) : Rat :=
  match v with
  | none => 0
  | some q => q

/-- Truncation toward zero, the semantics of `.astype(int)` on a float. -/
def truncToInt (q : Rat) : Int := if 0 ≤ q then q.floor else -(-q).floor

/-- `pd.to_numeric(x, errors='coerce').fillna(0).astype(int)` on the
`Quantite` and `Satisfaction_Client` columns. -/
def coerceIntField (v : Option Rat) : Int :=
  truncToInt (match v with
    | none => 0
    | some q => q)

/-- `.astype(str)` on an object column: pandas renders a missing cell (NaN)
as the literal string `"nan"`. -/
def astypeStr (v : Option String) : String :=
  match v with
  | none => "nan"
  | some s => s

/-- The string-column coercion `df[c].astype(str).fillna('')`: after
`astype(str)` no missing value remains, so the trailing `.fillna('')` is the
identity and a missing cell comes out as `"nan"`, not `""`. -/
def coerceStrField (v : Option String) : String := astypeStr v

/-- Convenience constructor for concrete rows (fixed client id). -/
def mkRow (d : Int) (m : Rat) (mag cat : String) (q : Int) (pay : String)
    (s : Int) (p : String) : Row :=
  ⟨"c", d, m, mag, cat, q, pay, s, p⟩

/-- A spec whose only constraint is `end_date` = calendar day 0. -/
def exSpecEnd : FilterSpec := ⟨none, some 0, [], [], []⟩

/-- A record timestamped at exactly midnight of day 1, i.e. on the day
after `exSpecEnd`'s end date. -/
def exRowNextDay : Row := mkRow nsPerDay 1 "S" "A" 1 "CB" 3 "x"

/-- Two rows in categories `A` and `B` with equal revenue (tie data). -/
def exTieRows : List Row :=
  [mkRow 0 10 "S" "A" 1 "CB" 3 "x", mkRow 0 10 "S" "B" 1 "CB" 3 "x"]

/-- Two rows of one category whose products `a` and `b` tie on quantity. -/
def exProdRows : List Row :=
  [mkRow 0 1 "S" "c" 5 "CB" 3 "a", mkRow 0 1 "S" "c" 5 "CB" 3 "b"]

/-- Six rows with one record at each satisfaction score 0..5. -/
def exSixRows : List Row :=
  [mkRow 0 1 "S" "A" 1 "CB" 0 "x", mkRow 0 1 "S" "A" 1 "CB" 1 "x",
   mkRow 0 1 "S" "A" 1 "CB" 2 "x", mkRow 0 1 "S" "A" 1 "CB" 3 "x",
   mkRow 0 1 "S" "A" 1 "CB" 4 "x", mkRow 0 1 "S" "A" 1 "CB" 5 "x"]

/-- Two rows with satisfaction scores 4 and 5 (a small non-empty snapshot). -/
def exTwoRows : List Row :=
  [mkRow 0 1 "S" "A" 1 "CB" 4 "x", mkRow 0 1 "S" "A" 1 "CB" 5 "x"]

/-- A one-row dataset in store `A`. -/
def exDsA : List Row := [mkRow 0 1 "A" "c" 1 "CB" 3 "x"]

/-- A spec selecting store `B` only: it matches no row of `exDsA`. -/
def exSpecB : FilterSpec := ⟨none, none, ["B"], [], []⟩

/-- A source column list missing exactly the `Quantite` column. -/
def exColsNoQuantite : List String :=
  ["ID_Client", "Date_Transaction", "Montant", "Magasin", "Categorie_Produit",
   "Mode_Paiement", "Satisfaction_Client"]

/-- Ordering claimed by the spec for the descending grouped views: values
descending, and groups with equal values in ascending key order. -/
def tiesAscKey {κ β : Type} [LT κ] [LT β] (l : List (κ × β)) : Prop :=
  l.Pairwise (fun a b => b.2 < a.2 ∨ (b.2 = a.2 ∧ a.1 < b.1))

/-- Ordering produced by the embedding's `sortDescByVal` (and by the
program in the stable small-array regime): values descending, and groups
with equal values in descending key order.  Used only to derive
order-insensitive facts; the program fixes no tie order in general. -/
def tiesDescKey {κ β : Type} [LT κ] [LT β] (l : List (κ × β)) : Prop :=
  l.Pairwise (fun a b => b.2 < a.2 ∨ (b.2 = a.2 ∧ b.1 < a.1))

/-- Weakly descending value order: the one ordering guarantee a
descending `sort_values` gives regardless of sort kind or tie handling. -/
def descByVal {κ β : Type} [LE β] (l : List (κ × β)) : Prop :=
  l.Pairwise (fun a b => b.2 ≤ a.2)

/-- Helper for `specDenseRanked`: checks the tail of a ranked table against
the previous rank and value. -/
def denseRankedFrom {β : Type} [DecidableEq β] :
    Nat → β → List (Nat × String × β) → Bool
  | _, _, [] => true
  | r, q, (r2, _, q2) :: t =>
      (if q2 = q then decide (r2 = r) else decide (r2 = r + 1)) &&
      denseRankedFrom r2 q2 t

/-- Follows the spec's words, not the source: a table is dense-ranked when
the first rank is 1, tied sums share a rank, and the rank increases by one
whenever the sum changes. -/
def specDenseRanked {β : Type} [DecidableEq β] :
    List (Nat × String × β) → Bool
  | [] => true
  | (r, _, q) :: t => decide (r = 1) && denseRankedFrom r q t

end TP2

namespace TP2

/-- The five sequential masks of the filtering prelude are one filter by
the conjunction of the active predicates. -/
theorem applyFilter_eq_filter (spec : FilterSpec) (rows : List Row) :
    applyFilter spec rows = rows.filter (passes spec) := by
  obtain ⟨sd, ed, st, ct, py⟩ := spec
  unfold applyFilter passes
  cases sd <;> cases ed <;> cases st <;> cases ct <;> cases py <;>
    simp [List.filter_filter, Bool.and_assoc, Bool.and_comm, Bool.and_left_comm]

/-- C1 counterexample: with `end_date` = day 0, the record timestamped at
exactly midnight of day 1 — a record on the day after the end date — is
admitted by the filter, although its timestamp is not strictly less than
`end_date + 1 day`. -/
theorem c1_counterexample :
    applyFilter exSpecEnd [exRowNextDay] = [exRowNextDay] ∧
    dateOnly exRowNextDay.date = 1 ∧
    exSpecEnd.endDate = some 0 ∧
    ¬ (exRowNextDay.date < dayStart (0 + 1)) := by
  refine ⟨by decide, by decide, rfl, by decide⟩

/-- C1 (amended): for a spec carrying a start and an end date and no
categorical constraint, the filter admits exactly the records with
`start_date ≤ timestamp` and `timestamp ≤ end_date + 1 day` — an inclusive
upper bound one day after the end date, so the whole end day is included
and so is a record at exactly midnight of the following day. -/
theorem c1_amended_date_bounds (rows : List Row) (s e : Int) (r : Row) :
    r ∈ applyFilter ⟨some s, some e, [], [], []⟩ rows ↔
      r ∈ rows ∧ dayStart s ≤ r.date ∧ r.date ≤ dayStart e + nsPerDay := by
  rw [applyFilter_eq_filter, List.mem_filter]
  simp [passes, and_assoc]

/-- C10: evaluation of the load-time coercions at a missing cell.  The
numeric columns do get the documented defaults `0.0` / `0`, but a missing
string cell becomes the literal string `"nan"`, not the empty string: the
source's `.fillna('')` runs after `astype(str)` has already converted the
missing marker to `"nan"`, so the intended empty-string default is dead
code. -/
theorem c10_coercion_defaults :
    coerceStrField none = "nan" ∧
    coerceStrField none ≠ "" ∧
    coerceMontant none = 0 ∧
    coerceIntField none = 0 ∧
    coerceMontant (some (5/2)) = 5/2 ∧
    coerceIntField (some (7/2)) = 3 ∧
    coerceStrField (some "Lyon") = "Lyon" := by
  refine ⟨rfl, by decide, rfl, by with_unfolding_all decide, rfl,
    by with_unfolding_all decide, rfl⟩

/-- The key list produced by `sortedKeys` has no duplicates. -/
theorem sortedKeys_nodup {κ : Type} [LinearOrder κ] [DecidableEq κ] (l : List κ) :
    (sortedKeys l).Nodup :=
  (List.perm_insertionSort _ _).nodup_iff.mpr l.nodup_dedup

/-- Membership in `sortedKeys` is membership in the underlying list. -/
theorem mem_sortedKeys {κ : Type} [LinearOrder κ] [DecidableEq κ] {x : κ} {l : List κ} :
    x ∈ sortedKeys l ↔ x ∈ l := by
  unfold sortedKeys
  rw [(List.perm_insertionSort _ _).mem_iff, List.mem_dedup]

/-- The key list produced by `sortedKeys` is strictly increasing. -/
theorem sortedKeys_pairwise_lt {κ : Type} [LinearOrder κ] [DecidableEq κ] (l : List κ) :
    (sortedKeys l).Pairwise (fun a b => a < b) := by
  have hs : (sortedKeys l).Pairwise (fun a b => a ≤ b) := List.sorted_insertionSort _ _
  have hnd : (sortedKeys l).Nodup := sortedKeys_nodup l
  exact (hs.and hnd).imp fun h => lt_of_le_of_ne h.1 h.2

/-- The keys of a `groupAgg` result are strictly increasing. -/
theorem groupAgg_keys_lt {κ β : Type} [LinearOrder κ] [DecidableEq κ]
    (keyOf : Row → κ) (agg : List Row → β) (rows : List Row) :
    (groupAgg keyOf agg rows).Pairwise (fun a b => a.1 < b.1) := by
  unfold groupAgg
  rw [List.pairwise_map]
  exact sortedKeys_pairwise_lt _

/-- Inserting into a list sorted by (value, key) lexicographically, when the
inserted element's key is below every key present, keeps the list sorted
lexicographically.  This is the stability argument for the ascending pass of
`sort_values`. -/
theorem orderedInsert_pairwise_lex {κ β : Type} [LinearOrder κ] [LinearOrder β]
    (x : κ × β) (m : List (κ × β))
    (hm : m.Pairwise (fun a b => a.2 < b.2 ∨ (a.2 = b.2 ∧ a.1 < b.1)))
    (hx : ∀ y ∈ m, x.1 < y.1) :
    (List.orderedInsert (fun a b => a.2 ≤ b.2) x m).Pairwise
      (fun a b => a.2 < b.2 ∨ (a.2 = b.2 ∧ a.1 < b.1)) := by
  induction m with
  | nil => simp [List.orderedInsert]
  | cons y ys ih =>
    rw [List.orderedInsert]
    rcases List.pairwise_cons.mp hm with ⟨hy, hys⟩
    by_cases hxy : x.2 ≤ y.2
    · rw [if_pos hxy]
      refine List.pairwise_cons.mpr ⟨?_, hm⟩
      intro w hw
      have hxw : x.1 < w.1 := hx w hw
      rcases List.mem_cons.mp hw with rfl | hwys
      · rcases lt_or_eq_of_le hxy with h | h
        · exact Or.inl h
        · exact Or.inr ⟨h, hxw⟩
      · have hyw : y.2 ≤ w.2 := by
          rcases hy w hwys with h | h
          · exact le_of_lt h
          · exact le_of_eq h.1
        rcases lt_or_eq_of_le (le_trans hxy hyw) with h | h
        · exact Or.inl h
        · exact Or.inr ⟨h, hxw⟩
    · rw [if_neg hxy]
      have hyx : y.2 < x.2 := lt_of_not_le hxy
      refine List.pairwise_cons.mpr ⟨?_, ?_⟩
      · intro w hw
        rcases (List.mem_orderedInsert _).mp hw with rfl | hwys
        · exact Or.inl hyx
        · exact hy w hwys
      · exact ih hys fun z hz => hx z (List.mem_cons_of_mem _ hz)

/-- The stable ascending-by-value sort of a strictly-key-increasing list is
sorted lexicographically by (value, key). -/
theorem insertionSort_pairwise_lex {κ β : Type} [LinearOrder κ] [LinearOrder β]
    (l : List (κ × β)) (hl : l.Pairwise (fun a b => a.1 < b.1)) :
    (List.insertionSort (fun a b => a.2 ≤ b.2) l).Pairwise
      (fun a b => a.2 < b.2 ∨ (a.2 = b.2 ∧ a.1 < b.1)) := by
  induction l with
  | nil => simp [List.insertionSort]
  | cons x xs ih =>
    rw [List.insertionSort]
    rcases List.pairwise_cons.mp hl with ⟨hx, hxs⟩
    refine orderedInsert_pairwise_lex x _ (ih hxs) ?_
    intro y hy
    exact hx y ((List.perm_insertionSort _ _).mem_iff.mp hy)

/-- `sort_values(ascending=False)` on a strictly-key-increasing pair list
yields values descending with equal values in descending key order. -/
theorem sortDescByVal_tiesDescKey {κ β : Type} [LinearOrder κ] [LinearOrder β]
    (l : List (κ × β)) (hl : l.Pairwise (fun a b => a.1 < b.1)) :
    tiesDescKey (sortDescByVal l) := by
  unfold tiesDescKey sortDescByVal
  rw [List.pairwise_reverse]
  exact insertionSort_pairwise_lex l hl

/-- C4 counterexample: two categories `A`, `B` with equal revenue come out
of `sales_by_cat` in the order `B`, `A` — equal values in descending, not
ascending, key order. -/
theorem c4_counterexample :
    sales_by_cat exTieRows = [("B", 10), ("A", 10)] ∧
    ¬ tiesAscKey (sales_by_cat exTieRows) := by
  refine ⟨by with_unfolding_all rfl, ?_⟩
  unfold tiesAscKey
  with_unfolding_all decide

/-- A descending value sort of a groupby result is weakly descending in
the value — the tie-order-insensitive part of `sortDescByVal`'s output. -/
theorem sortDescByVal_descByVal {κ β : Type} [LinearOrder κ] [LinearOrder β]
    (l : List (κ × β)) (hl : l.Pairwise (fun a b => a.1 < b.1)) :
    descByVal (sortDescByVal l) := by
  refine (sortDescByVal_tiesDescKey l hl).imp ?_
  intro a b h
  rcases h with h | h
  · exact le_of_lt h
  · exact le_of_eq h.1

/-- C4 (amended): every grouped view sorted descending by value
(`sales_by_cat`, `sales_store`, `avg_store`, `qty_cat`, `sat_store`,
`sat_cat`, `pay_counts`) lists its groups in weakly descending value
order.  The relative order of groups with equal values is
implementation-defined — pandas sorts with numpy's introsort, unstable
above its insertion-sort cutoff — and in particular is not ascending key
name: at small sizes a tie comes out in descending key order, as the
counterexample shows. -/
theorem c4_amended_desc_values (rows : List Row) :
    descByVal (sales_by_cat rows) ∧ descByVal (sales_store rows) ∧
    descByVal (avg_store rows) ∧ descByVal (qty_cat rows) ∧
    descByVal (sat_store rows) ∧ descByVal (sat_cat rows) ∧
    descByVal (pay_counts rows) :=
  ⟨sortDescByVal_descByVal _ (groupAgg_keys_lt _ _ _),
   sortDescByVal_descByVal _ (groupAgg_keys_lt _ _ _),
   sortDescByVal_descByVal _ (groupAgg_keys_lt _ _ _),
   sortDescByVal_descByVal _ (groupAgg_keys_lt _ _ _),
   sortDescByVal_descByVal _ (groupAgg_keys_lt _ _ _),
   sortDescByVal_descByVal _ (groupAgg_keys_lt _ _ _),
   sortDescByVal_descByVal _ (groupAgg_keys_lt _ _ _)⟩

/-- `withRanks` preserves length. -/
theorem withRanks_length {β : Type} (n : Nat) (l : List (String × β)) :
    (withRanks n l).length = l.length := by
  induction l generalizing n with
  | nil => rfl
  | cons x xs ih =>
    cases x with
    | mk p q => simp [withRanks, ih]

/-- The rank column written by `withRanks n` is `n, n+1, ...`. -/
theorem withRanks_map_fst {β : Type} (n : Nat) (l : List (String × β)) :
    (withRanks n l).map (fun e => e.1) = List.range' n l.length := by
  induction l generalizing n with
  | nil => rfl
  | cons x xs ih =>
    cases x with
    | mk p q => simp [withRanks, List.range', ih]

/-- Each entry of `withRanks n l` carries a payload from `l`. -/
theorem mem_withRanks {β : Type} (n : Nat) (l : List (String × β)) :
    ∀ w ∈ withRanks n l, w.2 ∈ l := by
  induction l generalizing n with
  | nil => intro w hw; cases hw
  | cons x xs ih =>
    cases x with
    | mk p q =>
      intro w hw
      rcases List.mem_cons.mp hw with rfl | hw2
      · exact List.mem_cons_self _ _
      · exact List.mem_cons_of_mem _ (ih (n + 1) w hw2)

/-- `withRanks` transports a pairwise property of the payloads. -/
theorem withRanks_pairwise {β : Type} (P : (String × β) → (String × β) → Prop)
    (n : Nat) (l : List (String × β)) (hp : l.Pairwise P) :
    (withRanks n l).Pairwise (fun a b => P a.2 b.2) := by
  induction l generalizing n with
  | nil => exact List.Pairwise.nil
  | cons x xs ih =>
    cases x with
    | mk p q =>
      rcases List.pairwise_cons.mp hp with ⟨hx, hxs⟩
      refine List.pairwise_cons.mpr ⟨?_, ih (n + 1) hxs⟩
      intro w hw
      exact hx w.2 (mem_withRanks (n + 1) xs w hw)

/-- C2 counterexample: with the product column present, two products of one
category tying on total quantity receive the distinct ranks 1 and 2 — the
ranking is ordinal, not dense. -/
theorem c2_counterexample :
    topProductsView true exProdRows =
      TopProductsView.available [("c", [(1, "b", 5), (2, "a", 5)])] ∧
    specDenseRanked [(1, "b", (5 : Int)), (2, "a", 5)] = false :=
  ⟨by with_unfolding_all rfl, by decide⟩

/-- C2 (amended): every per-category table holds at most five products,
sorted by descending quantity sum, with ordinal ranks `1..k` (tied sums
receive distinct consecutive ranks); when the product column is absent the
view is the structured unavailable marker, not an exception. -/
theorem c2_amended_top5 (rows : List Row) (cat : String)
    (t : List (Nat × String × Int)) (hmem : (cat, t) ∈ topProdTables rows) :
    t.length ≤ 5 ∧
    t.map (fun e => e.1) = List.range' 1 t.length ∧
    t.Pairwise (fun a b => b.2.2 ≤ a.2.2) ∧
    topProductsView false rows = TopProductsView.unavailable := by
  unfold topProdTables at hmem
  rcases List.mem_filterMap.mp hmem with ⟨k, hk, hf⟩
  dsimp only at hf
  by_cases he : ((sortDescByVal (groupAgg Row.produit (fun l => (l.map Row.quantite).sum)
      (rows.filter (fun r => decide (r.categorie = k))))).take 5).isEmpty
  · rw [if_pos he] at hf
    cases hf
  · rw [if_neg he] at hf
    rcases Option.some.inj hf with hf2
    rcases Prod.mk.injEq .. ▸ hf2 with ⟨hk2, ht⟩
    have hdesc : (sortDescByVal (groupAgg Row.produit (fun l => (l.map Row.quantite).sum)
        (rows.filter (fun r => decide (r.categorie = k))))).Pairwise
          (fun a b => b.2 ≤ a.2) := by
      refine (sortDescByVal_tiesDescKey _ (groupAgg_keys_lt _ _ _)).imp ?_
      intro a b h
      rcases h with h | h
      · exact le_of_lt h
      · exact le_of_eq h.1
    have htake : ((sortDescByVal (groupAgg Row.produit (fun l => (l.map Row.quantite).sum)
        (rows.filter (fun r => decide (r.categorie = k))))).take 5).Pairwise
          (fun a b => b.2 ≤ a.2) :=
      hdesc.sublist (List.take_sublist _ _)
    refine ⟨?_, ?_, ?_, rfl⟩
    · rw [← ht, withRanks_length, List.length_take]
      exact min_le_left _ _
    · rw [← ht, withRanks_length, withRanks_map_fst]
    · rw [← ht]
      exact withRanks_pairwise _ 1 _ htake

/-- Witness for C2 (amended) at the concrete tied-product table. -/
theorem c2_amended_top5_witness :
    (("c", [(1, "b", (5 : Int)), (2, "a", 5)]) ∈ topProdTables exProdRows) ∧
    (([(1, "b", (5 : Int)), (2, "a", 5)] : List (Nat × String × Int)).length ≤ 5 ∧
     ([(1, "b", (5 : Int)), (2, "a", 5)] : List (Nat × String × Int)).map (fun e => e.1)
       = List.range' 1 ([(1, "b", (5 : Int)), (2, "a", 5)] : List (Nat × String × Int)).length ∧
     ([(1, "b", (5 : Int)), (2, "a", 5)] : List (Nat × String × Int)).Pairwise
       (fun a b => b.2.2 ≤ a.2.2) ∧
     topProductsView false exProdRows = TopProductsView.unavailable) :=
  ⟨by with_unfolding_all decide,
   c2_amended_top5 exProdRows "c" _ (by with_unfolding_all decide)⟩

/-- C7: applying the same FilterSpec twice yields the same snapshot as
applying it once. -/
theorem c7_idempotent_filtering (rows : List Row) (spec : FilterSpec) :
    applyFilter spec (applyFilter spec rows) = applyFilter spec rows := by
  simp [applyFilter_eq_filter, List.filter_filter]

/-- Batteries' executable `Rat.floor` agrees with Mathlib's `Int.floor`. -/
theorem ratFloor_eq_floor (q : Rat) : q.floor = ⌊q⌋ :=
  (Rat.floor_def' q).trans Rat.floor_def.symm

/-- Half-to-even rounding moves a rational by at most one half. -/
theorem abs_roundHalfEven_sub (q : Rat) : |(roundHalfEven q : Rat) - q| ≤ 1 / 2 := by
  unfold roundHalfEven
  simp only [ratFloor_eq_floor]
  have h0 : (⌊q⌋ : Rat) ≤ q := Int.floor_le q
  have h1 : q < ⌊q⌋ + 1 := Int.lt_floor_add_one q
  split_ifs with ha hb hc
  · rw [abs_le]
    constructor <;> linarith
  · push_cast
    rw [abs_le]
    constructor <;> linarith
  · have hh : q - ⌊q⌋ = 1 / 2 := le_antisymm (not_lt.mp hb) (not_lt.mp ha)
    rw [abs_le]
    constructor <;> linarith
  · have hh : q - ⌊q⌋ = 1 / 2 := le_antisymm (not_lt.mp hb) (not_lt.mp ha)
    push_cast
    rw [abs_le]
    constructor <;> linarith

/-- `.round(2)` moves a rational by at most `1/200`. -/
theorem abs_round2_sub (q : Rat) : |round2 q - q| ≤ 1 / 200 := by
  have h := abs_roundHalfEven_sub (q * 100)
  have heq : round2 q - q = ((roundHalfEven (q * 100) : Rat) - q * 100) / 100 := by
    unfold round2
    ring
  rw [heq, abs_div, show |(100 : Rat)| = 100 from by norm_num,
    div_le_iff₀ (by norm_num : (0 : Rat) < 100)]
  linarith

/-- Rounding each entry of a list moves its sum by at most `1/200` per
entry. -/
theorem sum_map_round2_close (l : List Rat) :
    |(l.map round2).sum - l.sum| ≤ (l.length : Rat) / 200 := by
  induction l with
  | nil => simp
  | cons x xs ih =>
    simp only [List.map_cons, List.sum_cons, List.length_cons]
    have h1 := abs_round2_sub x
    have h2 : round2 x + (xs.map round2).sum - (x + xs.sum)
        = (round2 x - x) + ((xs.map round2).sum - xs.sum) := by ring
    rw [h2, show ((xs.length + 1 : Nat) : Rat) = (xs.length : Rat) + 1 from by push_cast; ring]
    calc |(round2 x - x) + ((xs.map round2).sum - xs.sum)|
        ≤ |round2 x - x| + |(xs.map round2).sum - xs.sum| := abs_add _ _
      _ ≤ 1 / 200 + (xs.length : Rat) / 200 := add_le_add h1 ih
      _ = ((xs.length : Rat) + 1) / 200 := by ring

/-- Summing the constant 1 over a list counts its elements. -/
theorem sum_map_one {α : Type} (l : List α) :
    (l.map (fun _ => (1 : Nat))).sum = l.length := by
  induction l with
  | nil => rfl
  | cons x xs ih => simp [ih, Nat.add_comm]

/-- Summing the constant 0 over a list gives 0. -/
theorem sum_map_zero {κ M : Type} [AddCommMonoid M] (ks : List κ) :
    (ks.map (fun _ => (0 : M))).sum = 0 := by
  induction ks with
  | nil => rfl
  | cons a as ih => simp [ih]

/-- Adding `c` to the summand at the unique position of `k0` adds `c` to
the total. -/
theorem sum_map_ite_mem {κ M : Type} [DecidableEq κ] [AddCommMonoid M]
    (ks : List κ) (k0 : κ) (c : M) (f : κ → M)
    (hnd : ks.Nodup) (hk : k0 ∈ ks) :
    (ks.map (fun k => if k0 = k then c + f k else f k)).sum = c + (ks.map f).sum := by
  induction ks with
  | nil => cases hk
  | cons a as ih =>
    rcases List.nodup_cons.mp hnd with ⟨ha, has⟩
    rcases List.mem_cons.mp hk with rfl | hk2
    · have h1 : ∀ k ∈ as, (if k0 = k then c + f k else f k) = f k := by
        intro k hkas
        rw [if_neg]
        intro he
        subst he
        exact ha hkas
      rw [List.map_cons, List.sum_cons, if_pos rfl, List.map_congr_left h1,
        List.map_cons, List.sum_cons, add_assoc]
    · have hne : k0 ≠ a := by
        intro he
        subst he
        exact ha hk2
      rw [List.map_cons, List.sum_cons, if_neg hne, ih has hk2,
        List.map_cons, List.sum_cons, add_left_comm]

/-- Partition lemma: summing an additive value group-by-group over a
duplicate-free key list covering every row gives the global sum. -/
theorem sum_groups {α κ M : Type} [DecidableEq κ] [AddCommMonoid M]
    (keyOf : α → κ) (v : α → M) (ks : List κ) (rows : List α)
    (hnd : ks.Nodup) (hcov : ∀ r ∈ rows, keyOf r ∈ ks) :
    (ks.map (fun k => ((rows.filter (fun r => decide (keyOf r = k))).map v).sum)).sum
      = (rows.map v).sum := by
  induction rows with
  | nil => simp [sum_map_zero]
  | cons r rs ih =>
    have hcov2 : ∀ x ∈ rs, keyOf x ∈ ks := fun x hx => hcov x (List.mem_cons_of_mem _ hx)
    have hstep : ∀ k ∈ ks,
        (((r :: rs).filter (fun x => decide (keyOf x = k))).map v).sum
          = if keyOf r = k
            then v r + ((rs.filter (fun x => decide (keyOf x = k))).map v).sum
            else ((rs.filter (fun x => decide (keyOf x = k))).map v).sum := by
      intro k hkk
      by_cases hrk : keyOf r = k
      · simp [List.filter_cons, hrk]
      · simp [List.filter_cons, hrk]
    rw [List.map_congr_left hstep,
      sum_map_ite_mem ks (keyOf r) (v r) _ hnd (hcov r (List.mem_cons_self r rs)),
      ih hcov2]
    simp

/-- C5: the per-store totals of `store_table` partition the KPI total, and
the per-store counts partition the transaction count (the sums are exactly
equal, hence certainly within the claimed `1e-9`). -/
theorem c5_partition_coverage (rows : List Row) :
    ((store_table rows).map (fun e => e.2.1)).sum = total_ventes rows ∧
    ((store_table rows).map (fun e => e.2.2)).sum = nb_transactions rows := by
  have hnd := sortedKeys_nodup (rows.map Row.magasin)
  have hcov : ∀ r ∈ rows, r.magasin ∈ sortedKeys (rows.map Row.magasin) := by
    intro r hr
    exact mem_sortedKeys.mpr (List.mem_map_of_mem _ hr)
  constructor
  · have h := sum_groups Row.magasin Row.montant _ rows hnd hcov
    simpa [store_table, groupAgg, total_ventes, List.map_map, Function.comp] using h
  · have h := sum_groups Row.magasin (fun _ => (1 : Nat)) _ rows hnd hcov
    simp only [sum_map_one] at h
    simpa [store_table, groupAgg, nb_transactions, List.map_map, Function.comp] using h

/-- The satisfaction-distribution counts partition the row count. -/
theorem sat_counts_sum (rows : List Row) :
    ((sat_dist rows).map (fun e => e.2)).sum = rows.length := by
  have hnd := sortedKeys_nodup (rows.map Row.satisfaction)
  have hcov : ∀ r ∈ rows, r.satisfaction ∈ sortedKeys (rows.map Row.satisfaction) := by
    intro r hr
    exact mem_sortedKeys.mpr (List.mem_map_of_mem _ hr)
  have h := sum_groups Row.satisfaction (fun _ => (1 : Nat)) _ rows hnd hcov
  simp only [sum_map_one] at h
  simpa [sat_dist, groupAgg, List.map_map, Function.comp] using h

/-- A non-empty snapshot has a non-empty satisfaction distribution. -/
theorem sat_dist_ne_nil (rows : List Row) (h : rows ≠ []) : sat_dist rows ≠ [] := by
  cases rows with
  | nil => exact absurd rfl h
  | cons r rs =>
    have hmem : r.satisfaction ∈ sortedKeys ((r :: rs).map Row.satisfaction) :=
      mem_sortedKeys.mpr (List.mem_map_of_mem _ (List.mem_cons_self r rs))
    intro hnil
    unfold sat_dist groupAgg at hnil
    rw [List.map_eq_nil_iff] at hnil
    rw [hnil] at hmem
    exact List.not_mem_nil _ hmem

/-- On a non-empty snapshot the percentage denominator is the row count. -/
theorem sat_total_eq_length (rows : List Row) (h : rows ≠ []) :
    sat_total rows = rows.length := by
  have hne : ¬ ((sat_dist rows).isEmpty = true) := by
    simp only [List.isEmpty_iff]
    exact sat_dist_ne_nil rows h
  unfold sat_total
  rw [if_neg hne]
  exact sat_counts_sum rows

/-- Multiplying each count by a constant factors out of the sum. -/
theorem sum_map_mul_right_list (l : List (Int × Nat)) (c : Rat) :
    (l.map (fun e => (e.2 : Rat) * c)).sum = ((l.map (fun e => (e.2 : Rat))).sum) * c := by
  induction l with
  | nil => simp
  | cons x xs ih => simp [ih, add_mul]

/-- Casting a sum of counts to the rationals. -/
theorem cast_sum_counts (l : List (Int × Nat)) :
    (((l.map (fun e => e.2)).sum : Nat) : Rat) = (l.map (fun e => (e.2 : Rat))).sum := by
  induction l with
  | nil => simp
  | cons x xs ih => simp only [List.map_cons, List.sum_cons, Nat.cast_add, ih]

/-- Before rounding, the percentages of the satisfaction distribution sum
to exactly 100 on a non-empty snapshot. -/
theorem sat_unrounded_sum (rows : List Row) (h : rows ≠ []) :
    ((sat_dist rows).map
      (fun e => (e.2 : Rat) / (sat_total rows : Rat) * 100)).sum = 100 := by
  have hlen : sat_total rows = rows.length := sat_total_eq_length rows h
  have hpos : 0 < rows.length := List.length_pos.mpr h
  have hq : ((rows.length : Nat) : Rat) ≠ 0 :=
    Nat.cast_ne_zero.mpr (Nat.pos_iff_ne_zero.mp hpos)
  have hform : ∀ e ∈ sat_dist rows, (e.2 : Rat) / (sat_total rows : Rat) * 100
      = (e.2 : Rat) * (100 / (sat_total rows : Rat)) := by
    intro e _
    ring
  rw [List.map_congr_left hform, sum_map_mul_right_list, ← cast_sum_counts,
    sat_counts_sum rows, hlen]
  rw [mul_comm, div_mul_cancel₀ _ hq]

/-- C8 counterexample: six records, one at each satisfaction score 0..5.
Each percentage rounds to 16.67, so the column sums to 100.02, which is not
within 0.01 of 100. -/
theorem c8_counterexample :
    ((sat_dist_table exSixRows).map (fun e => e.2.2)).sum = 5001 / 50 ∧
    ¬ |((sat_dist_table exSixRows).map (fun e => e.2.2)).sum - 100| ≤ 1 / 100 :=
  ⟨by with_unfolding_all rfl, by with_unfolding_all decide⟩

/-- C8 (amended): on a non-empty snapshot the rounded percentages sum to
100 within `0.005` per distinct score (the per-entry rounding bound), the
percentage denominator equals the snapshot's row count, and it is 1 on the
empty snapshot so that no division fault occurs. -/
theorem c8_amended_distribution (rows : List Row) (h : rows ≠ []) :
    |((sat_dist_table rows).map (fun e => e.2.2)).sum - 100|
      ≤ ((sat_dist rows).length : Rat) / 200 ∧
    sat_total rows = nb_transactions rows ∧
    sat_total [] = 1 := by
  refine ⟨?_, sat_total_eq_length rows h, rfl⟩
  have hmap : (sat_dist_table rows).map (fun e => e.2.2)
      = ((sat_dist rows).map
          (fun e => (e.2 : Rat) / (sat_total rows : Rat) * 100)).map round2 := by
    unfold sat_dist_table
    rw [List.map_map, List.map_map]
    rfl
  have htri := sum_map_round2_close
    ((sat_dist rows).map (fun e => (e.2 : Rat) / (sat_total rows : Rat) * 100))
  rw [sat_unrounded_sum rows h, List.length_map] at htri
  rw [hmap]
  exact htri

/-- Witness for C8 (amended) at a concrete two-row snapshot. -/
theorem c8_amended_distribution_witness :
    exTwoRows ≠ [] ∧
    (|((sat_dist_table exTwoRows).map (fun e => e.2.2)).sum - 100|
        ≤ ((sat_dist exTwoRows).length : Rat) / 200 ∧
     sat_total exTwoRows = nb_transactions exTwoRows ∧
     sat_total [] = 1) :=
  ⟨by decide, c8_amended_distribution exTwoRows (by decide)⟩

/-- C9: whenever a required column is missing, the startup check aborts
with a diagnostic carrying exactly the missing columns and the sorted full
expected set; a source without `Quantite` names `Quantite` among them. -/
theorem c9_schema_error (cols : List String)
    (h : ∃ c ∈ expected_cols, c ∉ cols) :
    schemaCheck cols = LoadResult.schemaError (missingCols cols)
        (List.insertionSort (fun a b => a ≤ b) expected_cols) ∧
    (∀ c, c ∈ missingCols cols ↔ c ∈ expected_cols ∧ c ∉ cols) ∧
    ("Quantite" ∉ cols → "Quantite" ∈ missingCols cols) := by
  rcases h with ⟨c, hc, hcn⟩
  have hmem : c ∈ missingCols cols := by
    unfold missingCols
    rw [List.mem_filter]
    exact ⟨hc, by simpa using hcn⟩
  have hne : ¬ ((missingCols cols).isEmpty = true) := by
    simp only [List.isEmpty_iff]
    exact List.ne_nil_of_mem hmem
  refine ⟨?_, ?_, ?_⟩
  · unfold schemaCheck
    rw [if_neg hne]
  · intro x
    unfold missingCols
    rw [List.mem_filter]
    simp
  · intro hq
    unfold missingCols
    rw [List.mem_filter]
    exact ⟨by decide, by simpa using hq⟩

/-- Witness for C9 at a column list missing exactly `Quantite`. -/
theorem c9_schema_error_witness :
    (∃ c ∈ expected_cols, c ∉ exColsNoQuantite) ∧
    (schemaCheck exColsNoQuantite = LoadResult.schemaError (missingCols exColsNoQuantite)
        (List.insertionSort (fun a b => a ≤ b) expected_cols) ∧
     (∀ c, c ∈ missingCols exColsNoQuantite ↔ c ∈ expected_cols ∧ c ∉ exColsNoQuantite) ∧
     ("Quantite" ∉ exColsNoQuantite → "Quantite" ∈ missingCols exColsNoQuantite)) :=
  ⟨by decide, c9_schema_error exColsNoQuantite (by decide)⟩

/-- C3: a FilterSpec matching zero records yields zero KPIs and every
grouped view empty; in the embedding every aggregation is a total function,
so no operation can raise. -/
theorem c3_empty_input (ds : List Row) (spec : FilterSpec)
    (h : applyFilter spec ds = []) :
    nb_transactions (applyFilter spec ds) = 0 ∧
    vente_moyenne (applyFilter spec ds) = 0 ∧
    satisfaction_moyenne (applyFilter spec ds) = 0 ∧
    daily (applyFilter spec ds) = [] ∧
    sales_by_cat (applyFilter spec ds) = [] ∧
    sales_store (applyFilter spec ds) = [] ∧
    avg_store (applyFilter spec ds) = [] ∧
    store_table (applyFilter spec ds) = [] ∧
    qty_cat (applyFilter spec ds) = [] ∧
    stacked (applyFilter spec ds) = [] ∧
    topProdTables (applyFilter spec ds) = [] ∧
    pay_counts (applyFilter spec ds) = [] ∧
    sat_store (applyFilter spec ds) = [] ∧
    sat_cat (applyFilter spec ds) = [] ∧
    sat_dist_table (applyFilter spec ds) = [] := by
  rw [h]
  decide

/-- Witness for C3: a one-row dataset in store `A` filtered by store `B`. -/
theorem c3_empty_input_witness :
    applyFilter exSpecB exDsA = [] ∧
    (nb_transactions (applyFilter exSpecB exDsA) = 0 ∧
     vente_moyenne (applyFilter exSpecB exDsA) = 0 ∧
     satisfaction_moyenne (applyFilter exSpecB exDsA) = 0 ∧
     daily (applyFilter exSpecB exDsA) = [] ∧
     sales_by_cat (applyFilter exSpecB exDsA) = [] ∧
     sales_store (applyFilter exSpecB exDsA) = [] ∧
     avg_store (applyFilter exSpecB exDsA) = [] ∧
     store_table (applyFilter exSpecB exDsA) = [] ∧
     qty_cat (applyFilter exSpecB exDsA) = [] ∧
     stacked (applyFilter exSpecB exDsA) = [] ∧
     topProdTables (applyFilter exSpecB exDsA) = [] ∧
     pay_counts (applyFilter exSpecB exDsA) = [] ∧
     sat_store (applyFilter exSpecB exDsA) = [] ∧
     sat_cat (applyFilter exSpecB exDsA) = [] ∧
     sat_dist_table (applyFilter exSpecB exDsA) = []) :=
  ⟨by decide, c3_empty_input exDsA exSpecB (by decide)⟩

/-- C6: filtering by a store-only spec and then by a category-only spec
yields the same snapshot as filtering once by the combined spec, and in
general the five masks combine as the logical AND of the active
predicates. -/
theorem c6_conjunction (rows : List Row) (a b : String) :
    applyFilter ⟨none, none, [], [b], []⟩
        (applyFilter ⟨none, none, [a], [], []⟩ rows) =
      applyFilter ⟨none, none, [a], [b], []⟩ rows ∧
    ∀ spec : FilterSpec, applyFilter spec rows = rows.filter (passes spec) :=
  ⟨rfl, fun spec => applyFilter_eq_filter spec rows⟩

end TP2
